import Mathlib

/-!
Verification of the diff segmentation and position-anchored review-comment
pipeline of the `gpt-code-reviewer` repository.

The repository contains two drivers:
* `src/reviewer.js` — whole-file mode: `runReview` narrows the reviewed range
  when the pull request has at least two commits, enforces a maximum patch
  length, sends each file's whole patch to the text-generation collaborator,
  and posts one comment per file anchored at `patch.split('\n').length - 1`.
* `src/unnamed/part_000` — per-line mode: `getDiff` turns every added line of
  every file patch into its own change unit at `position = index + 1`, and
  `reviewPullRequest` dispatches and posts each unit in order.

JavaScript string operations (`split('\n')`, `startsWith`, `.length`) are
modelled by executable functions over `String.data` so that every theorem can
be evaluated on concrete inputs.
-/

namespace GptCodeReviewer

/-- Model of JavaScript `s.split('\n')` at the character-list level:
`[]` yields `[[]]` (JS: `"".split('\n') = [""]`), a separator starts a new
(initially empty) chunk. -/
def splitNl : List Char → List (List Char)
  | [] => [[]]
  | c :: cs =>
    match splitNl cs with
    | [] => [[]]
    | l :: ls => if c = '\n' then [] :: l :: ls else (c :: l) :: ls

/-- Model of JavaScript `patch.split('\n')`. -/
def splitLines (s : String) : List String :=
  (splitNl s.data).map (fun l => String.mk l)

/-- Model of JavaScript `s.startsWith(pre)`. -/
def jsStartsWith (s pre : String) : Bool :=
  pre.data.isPrefixOf s.data

/-- Model of JavaScript `s.length` (code-unit counting differences for
non-ASCII text are irrelevant to the reviewed patches). -/
def jsLength (s : String) : Nat :=
  s.data.length

/-- `FileDiff`: one entry of the hosting collaborator's file list
(`{ filename, patch }`, `patch` absent for binary/renamed files). -/
structure FileDiff where
  filename : String
  patch : Option String
deriving Repr, DecidableEq

/-- A commit reference as returned by the hosting collaborator; only the
`sha` field is read by the code. -/
structure CommitRef where
  sha : String
deriving Repr, DecidableEq

/-- One per-line change unit as pushed by `getDiff` in `src/unnamed/part_000`:
`{ file: file.filename, position: index + 1, line: line }`. -/
structure Change where
  file : String
  position : Nat
  line : String
deriving Repr, DecidableEq

/-- The argument record of `octokit.pulls.createReviewComment` as built by
both drivers (`path`, `body`, `commit_id`, `position`). -/
structure PostedComment where
  path : String
  body : String
  commit_id : String
  position : Nat
deriving Repr, DecidableEq

/-- Console log events emitted by the drivers. -/
inductive LogEvent where
  /-- `console.log('no change found')` -/
  | noChange
  /-- ``console.log(`${file.filename} skipped caused by its diff is too large`)`` -/
  | skippedTooLarge (filename : String)
  /-- `console.log("Review comments posted successfully!")` -/
  | reviewPosted
  /-- ``console.error(`review ${file.filename} failed`, e)`` -/
  | reviewFailed (filename : String)
  /-- ``console.error(`Error comparing commits: ${base}...${head}`)`` -/
  | compareError (base head : String)
  /-- `console.error("Error:", error)` — the generic catch in part_000 and in
  the whole-PR driver; note it does not carry a file name. -/
  | errorLogged (msg : String)
deriving Repr, DecidableEq

/-! ## Per-line segmenter (`getDiff` in `src/unnamed/part_000`) -/

/-- Enumeration with indices starting at `i`, modelling the `(line, index)`
pair of `patchLines.forEach((line, index) => ...)`. -/
def enumFromIdx (i : Nat) : List String → List (Nat × String)
  | [] => []
  | l :: ls => (i, l) :: enumFromIdx (i + 1) ls

/-- The candidate test of part_000 line 49:
`line.startsWith('+') && !line.startsWith('+++')`. -/
def isAddedLine (line : String) : Bool :=
  jsStartsWith line "+" && !(jsStartsWith line "+++")

/-- The inner loop of `getDiff` (part_000 lines 46–56) on a single file's
patch: every added line becomes a change unit at `position = index + 1`. -/
def getDiffChangesForPatch (filename patch : String) : List Change :=
  ((enumFromIdx 0 (splitLines patch)).filter (fun p => isAddedLine p.2)).map
    (fun p => ⟨filename, p.1 + 1, p.2⟩)

/-- Model of JavaScript `file.patch || ''` (also covering the falsiness of an
empty-string patch in `if (file.patch)`). -/
def patchOf (f : FileDiff) : String :=
  f.patch.getD ""

/-- `getDiff` of part_000 (lines 36–61): collect the per-line change units of
every file that has a non-empty patch. -/
def getDiff (files : List FileDiff) : List Change :=
  files.flatMap (fun f =>
    if patchOf f = "" then [] else getDiffChangesForPatch f.filename (patchOf f))

/-- The lines carried by a per-line change unit (spec: the `lines` field of a
`ChangeUnit`; in per-line mode a unit carries exactly its one added line). -/
def unitLines (c : Change) : List String :=
  [c.line]

/-- The scenario patch of the specification's testable properties. -/
def scenarioPatch : String :=
  "@@ -1,2 +1,3 @@\n context\n+added line one\n+added line two\n removed"

/-! ## Range narrower (`runReview`, `src/reviewer.js` lines 37-50) -/

/-- `(process.env.IGNORE || process.env.ignore || '').split('\n').filter(v => v !== '')`. -/
def parseIgnoreList (raw : String) : List String :=
  (splitLines raw).filter (fun v => v ≠ "")

/-- The narrowing step of `runReview`: when the compared range has at least two
commits, keep only the full-range files whose filename also occurs in the
second-to-last→last commit diff (`lastPushFiles`) and is not on the ignore
list; otherwise the full-range file list is returned unchanged (the ignore
list is only consulted inside the two-commit branch). -/
def narrowChangedFiles (fullRangeFiles lastPushFiles : List FileDiff)
    (ignoreRaw : String) (commits : List CommitRef) : List FileDiff :=
  if 2 ≤ commits.length then
    let ignoreList := parseIgnoreList ignoreRaw
    let filesNames := lastPushFiles.map (fun file => file.filename)
    fullRangeFiles.filter (fun file =>
      filesNames.contains file.filename && !(ignoreList.contains file.filename))
  else
    fullRangeFiles

/-! ## Dispatcher and per-file processing (`runReview`, `src/reviewer.js`) -/

/-- `MAX_PATCH_COUNT` is `+process.env.MAX_PATCH_LENGTH` when the variable is
set and `Infinity` otherwise, so `patch.length > MAX_PATCH_COUNT` can only
hold when a bound is configured. -/
def tooLong (maxPatch : Option Nat) (patch : String) : Bool :=
  match maxPatch with
  | some m => decide (m < jsLength patch)
  | none => false

/-- `codeReview(patch)` (reviewer.js lines 102–145): an empty patch
short-circuits to the empty verdict; otherwise the text-generation
collaborator `gen` is called on the patch. (The `typeof prompt !== 'string'`
guard is unreachable and not modelled.) -/
def codeReview (gen : String → Except String String) (patch : String) :
    Except String String :=
  if patch = "" then Except.ok "" else gen patch

/-- The observable trace of processing one file in `runReview`:
which inputs were sent to the text-generation collaborator, the comment
posted for the file (if any), and the console events. -/
structure FileTrace where
  genCalls : List String
  post : Option PostedComment
  logs : List LogEvent
deriving Repr, DecidableEq

/-- The body of the `for` loop of `runReview` (reviewer.js lines 57–80) for a
single file: pre-check (skip when the patch is empty or longer than the
budget), then `codeReview`, then — only when the verdict is non-empty —
`createReviewComment` at `position = patch.split('\n').length - 1`, with any
error from dispatch or posting caught and logged with the file name.
`postR` is the hosting collaborator's comment endpoint (it may reject). -/
def processFile (maxPatch : Option Nat) (gen : String → Except String String)
    (postR : PostedComment → Except String Unit) (commitSha : String)
    (f : FileDiff) : FileTrace :=
  let patch := patchOf f
  if patch = "" || tooLong maxPatch patch then
    ⟨[], none, [LogEvent.skippedTooLarge f.filename]⟩
  else
    match codeReview gen patch with
    | Except.error _ => ⟨[patch], none, [LogEvent.reviewFailed f.filename]⟩
    | Except.ok res =>
      if res = "" then
        ⟨[patch], none, [LogEvent.reviewPosted]⟩
      else
        let c : PostedComment :=
          ⟨f.filename, res, commitSha, (splitLines patch).length - 1⟩
        match postR c with
        | Except.error _ => ⟨[patch], none, [LogEvent.reviewFailed f.filename]⟩
        | Except.ok _ => ⟨[patch], some c, [LogEvent.reviewPosted]⟩

/-- The observable trace of a whole run. -/
structure RunTrace where
  logs : List LogEvent
  posts : List PostedComment
  genCalls : List String
deriving Repr, DecidableEq

/-- Trace concatenation (sequential composition of observable effects). -/
def RunTrace.append (a b : RunTrace) : RunTrace :=
  ⟨a.logs ++ b.logs, a.posts ++ b.posts, a.genCalls ++ b.genCalls⟩

/-- The empty trace. -/
def RunTrace.nil : RunTrace :=
  ⟨[], [], []⟩

/-- A file's contribution to the run trace. -/
def fileRunTrace (maxPatch : Option Nat) (gen : String → Except String String)
    (postR : PostedComment → Except String Unit) (commitSha : String)
    (f : FileDiff) : RunTrace :=
  let t := processFile maxPatch gen postR commitSha f
  ⟨t.logs, t.post.toList, t.genCalls⟩

/-- The `for` loop of `runReview` over the narrowed file list (reviewer.js
lines 56–81): the files are processed strictly in order, each iteration's
try/catch confining its failure to that iteration. -/
def runReviewLoop (maxPatch : Option Nat) (gen : String → Except String String)
    (postR : PostedComment → Except String Unit) (commitSha : String)
    (files : List FileDiff) : RunTrace :=
  files.foldl
    (fun acc f => acc.append (fileRunTrace maxPatch gen postR commitSha f))
    RunTrace.nil

/-! ## The whole-file driver (`runReview` / `reviewPullRequest`, `src/reviewer.js`) -/

/-- The response of one `compareCommits` call. -/
structure CompareData where
  files : List FileDiff
  commits : List CommitRef
deriving Repr, DecidableEq

/-- `commits[commits.length - 1].sha`; the source would fault on an empty
commit list, so theorems about it assume the list is non-empty. -/
def lastSha (commits : List CommitRef) : String :=
  ((commits.getLast?).map (fun c => c.sha)).getD ""

/-- The outcome of `runReview` (reviewer.js lines 24–87): the trace, the
early-return value of the no-change path, and the error re-raised by the
outer catch (which first logs the compared range `base...head`). -/
structure RunResult where
  trace : RunTrace
  retVal : Option String
  thrown : Option String
deriving Repr, DecidableEq

/-- `runReview(owner, repo, pull_number, base, head)`. The two
`compareCommits` calls are the fetch oracles `cmpFull` (base...head) and
`cmpLastPush` (second-to-last...last commit, only consulted when the range
has at least two commits). A fetch failure reaches the outer catch: it is
logged with the compared range and re-raised; the loop is never entered, so
nothing is dispatched or posted. -/
def runReview (base head : String) (maxPatch : Option Nat) (ignoreRaw : String)
    (cmpFull : Except String CompareData)
    (cmpLastPush : Except String (List FileDiff))
    (gen : String → Except String String)
    (postR : PostedComment → Except String Unit) : RunResult :=
  match cmpFull with
  | Except.error e =>
    ⟨⟨[LogEvent.compareError base head], [], []⟩, none, some e⟩
  | Except.ok data =>
    match (if 2 ≤ data.commits.length then cmpLastPush else Except.ok []) with
    | Except.error e =>
      ⟨⟨[LogEvent.compareError base head], [], []⟩, none, some e⟩
    | Except.ok lastPushFiles =>
      let changedFiles :=
        narrowChangedFiles data.files lastPushFiles ignoreRaw data.commits
      if changedFiles.length = 0 then
        ⟨⟨[LogEvent.noChange], [], []⟩, some "no change", none⟩
      else
        ⟨runReviewLoop maxPatch gen postR (lastSha data.commits) changedFiles,
          none, none⟩

/-- The observable outcome of `reviewPullRequest` (reviewer.js lines
149–155) together with what became of `runReview`'s rejection. -/
structure TopOutcome where
  run : RunResult
  /-- the error printed by the `catch (error)` block, if it fired -/
  caughtByHandler : Option String
  /-- a rejection that escaped the handler (an unhandled promise rejection) -/
  unhandledRejection : Option String
deriving Repr, DecidableEq

/-- `reviewPullRequest` (reviewer.js lines 149–155): the call
`runReview(owner, repo, pull_number, base, head)` on line 151 is not
awaited; an `async` function never throws synchronously, so the surrounding
try/catch can never fire and a rejection of the returned promise escapes the
handler as an unhandled promise rejection. -/
def reviewPullRequest (base head : String) (maxPatch : Option Nat)
    (ignoreRaw : String) (cmpFull : Except String CompareData)
    (cmpLastPush : Except String (List FileDiff))
    (gen : String → Except String String)
    (postR : PostedComment → Except String Unit) : TopOutcome :=
  let r := runReview base head maxPatch ignoreRaw cmpFull cmpLastPush gen postR
  ⟨r, none, r.thrown⟩

/-! ## The per-line driver (`reviewPullRequest`, `src/unnamed/part_000`) -/

/-- The observable trace of the per-line driver. -/
structure P0Trace where
  logs : List LogEvent
  posts : List PostedComment
deriving Repr, DecidableEq

/-- The `for (const change of changes)` loop of part_000 lines 122–125:
dispatch (`generateReview(change.line)`) then post, with no per-unit
catch — the first error aborts the loop and propagates to the run-level
handler, so no later unit is dispatched or posted. Returns the comments
posted before the abort and the propagated error, if any. -/
def p0Loop (commitSha : String) (gen : String → Except String String)
    (postR : PostedComment → Except String Unit) :
    List Change → List PostedComment × Option String
  | [] => ([], none)
  | ch :: rest =>
    match gen ch.line with
    | Except.error e => ([], some e)
    | Except.ok review =>
      let cm : PostedComment := ⟨ch.file, review, commitSha, ch.position⟩
      match postR cm with
      | Except.error e => ([], some e)
      | Except.ok _ =>
        let r := p0Loop commitSha gen postR rest
        (cm :: r.1, r.2)

/-- `reviewPullRequest` of part_000 (lines 116–131): fetch the latest commit
SHA once (`getCommitId`), segment every file per line (`getDiff`), then run
the dispatch/post loop; the single try/catch around the whole body logs any
error as `console.error("Error:", error)` — without a file name — and ends
the run. An empty commit list makes `commits[commits.length - 1].sha` fault,
which the same catch absorbs. -/
def reviewPullRequestP0 (commits : List CommitRef) (files : List FileDiff)
    (gen : String → Except String String)
    (postR : PostedComment → Except String Unit) : P0Trace :=
  match commits.getLast? with
  | none => ⟨[LogEvent.errorLogged "TypeError"], []⟩
  | some last =>
    let changes := getDiff files
    let r := p0Loop last.sha gen postR changes
    match r.2 with
    | some e => ⟨[LogEvent.errorLogged e], r.1⟩
    | none => ⟨[LogEvent.reviewPosted], r.1⟩

/-- Number of lines of a text, counted independently of `splitLines`: one
more than the number of newline characters. -/
def numLines (s : String) : Nat :=
  s.data.count '\n' + 1

/-! ## Concrete collaborator behaviours used to evaluate the theorems -/

/-- A text-generation collaborator that always answers. -/
def genAlways : String → Except String String :=
  fun _ => Except.ok "review body"

/-- A text-generation collaborator that always answers with the empty
verdict. -/
def genEmptyVerdict : String → Except String String :=
  fun _ => Except.ok ""

/-- A text-generation collaborator that rejects on the unit `"+x"` and
answers on everything else. -/
def genFailOnX : String → Except String String :=
  fun l => if l = "+x" then Except.error "boom" else Except.ok "ok"

/-- A comment endpoint that always succeeds. -/
def postAlwaysOk : PostedComment → Except String Unit :=
  fun _ => Except.ok ()

/-! ## Helper lemmas -/

theorem splitNl_ne_nil (l : List Char) : splitNl l ≠ [] := by
  cases l with
  | nil => simp [splitNl]
  | cons c cs =>
    simp only [splitNl]
    cases h : splitNl cs with
    | nil => simp
    | cons hd tl =>
      by_cases hc : c = '\n' <;> simp [hc]

theorem splitNl_length (l : List Char) :
    (splitNl l).length = l.count '\n' + 1 := by
  induction l with
  | nil => rfl
  | cons c cs ih =>
    simp only [splitNl]
    cases h : splitNl cs with
    | nil => exact absurd h (splitNl_ne_nil cs)
    | cons hd tl =>
      rw [h] at ih
      simp only [List.length_cons] at ih
      by_cases hc : c = '\n' <;>
        simp [hc, List.count_cons] <;> omega

theorem splitLines_length (s : String) :
    (splitLines s).length = numLines s := by
  simp [splitLines, numLines, splitNl_length]

theorem mem_enumFromIdx {p : Nat × String} :
    ∀ {i : Nat} {ls : List String}, p ∈ enumFromIdx i ls →
      i ≤ p.1 ∧ p.1 < i + ls.length := by
  intro i ls
  induction ls generalizing i with
  | nil => intro h; simp [enumFromIdx] at h
  | cons a as ih =>
    intro h
    simp only [enumFromIdx, List.mem_cons] at h
    rcases h with h | h
    · subst h; simp
    · have := ih h; simp; omega

theorem RunTrace.nil_append (a : RunTrace) : RunTrace.nil.append a = a := by
  cases a; simp [RunTrace.append, RunTrace.nil]

theorem RunTrace.append_nil (a : RunTrace) : a.append RunTrace.nil = a := by
  cases a; simp [RunTrace.append, RunTrace.nil]

theorem RunTrace.append_assoc (a b c : RunTrace) :
    (a.append b).append c = a.append (b.append c) := by
  cases a; cases b; cases c; simp [RunTrace.append]

theorem foldl_runTrace (g : FileDiff → RunTrace) (files : List FileDiff) :
    ∀ acc : RunTrace,
      files.foldl (fun a f => a.append (g f)) acc =
        acc.append (files.foldl (fun a f => a.append (g f)) RunTrace.nil) := by
  induction files with
  | nil => intro acc; simp [List.foldl, RunTrace.append_nil]
  | cons f fs ih =>
    intro acc
    simp only [List.foldl]
    rw [ih (acc.append (g f)), ih (RunTrace.nil.append (g f))]
    rw [RunTrace.nil_append, RunTrace.append_assoc]

theorem runReviewLoop_cons (maxPatch : Option Nat)
    (gen : String → Except String String)
    (postR : PostedComment → Except String Unit) (commitSha : String)
    (f : FileDiff) (fs : List FileDiff) :
    runReviewLoop maxPatch gen postR commitSha (f :: fs) =
      (fileRunTrace maxPatch gen postR commitSha f).append
        (runReviewLoop maxPatch gen postR commitSha fs) := by
  simp only [runReviewLoop, List.foldl]
  rw [foldl_runTrace, RunTrace.nil_append]

theorem runReviewLoop_append (maxPatch : Option Nat)
    (gen : String → Except String String)
    (postR : PostedComment → Except String Unit) (commitSha : String)
    (xs ys : List FileDiff) :
    runReviewLoop maxPatch gen postR commitSha (xs ++ ys) =
      (runReviewLoop maxPatch gen postR commitSha xs).append
        (runReviewLoop maxPatch gen postR commitSha ys) := by
  induction xs with
  | nil =>
    simp only [List.nil_append]
    rw [show runReviewLoop maxPatch gen postR commitSha [] = RunTrace.nil from rfl,
      RunTrace.nil_append]
  | cons f fs ih =>
    simp only [List.cons_append]
    rw [runReviewLoop_cons, runReviewLoop_cons, ih, RunTrace.append_assoc]

theorem processFile_post_commit (maxPatch : Option Nat)
    (gen : String → Except String String)
    (postR : PostedComment → Except String Unit) (commitSha : String)
    (f : FileDiff) (c : PostedComment)
    (h : (processFile maxPatch gen postR commitSha f).post = some c) :
    c.commit_id = commitSha := by
  simp only [processFile] at h
  split at h
  · simp at h
  · split at h
    · simp at h
    · split at h
      · simp at h
      · split at h
        · simp at h
        · simp only [Option.some.injEq] at h
          subst h
          rfl

theorem mem_posts_runReviewLoop (maxPatch : Option Nat)
    (gen : String → Except String String)
    (postR : PostedComment → Except String Unit) (commitSha : String)
    (files : List FileDiff) (c : PostedComment)
    (h : c ∈ (runReviewLoop maxPatch gen postR commitSha files).posts) :
    ∃ f ∈ files, (processFile maxPatch gen postR commitSha f).post = some c := by
  induction files with
  | nil => simp [runReviewLoop, List.foldl, RunTrace.nil] at h
  | cons f fs ih =>
    rw [runReviewLoop_cons] at h
    simp only [RunTrace.append, fileRunTrace, List.mem_append] at h
    rcases h with h | h
    · refine ⟨f, by simp, ?_⟩
      simpa using h
    · rcases ih h with ⟨g, hg, hpost⟩
      exact ⟨g, by simp [hg], hpost⟩

theorem p0Loop_posts_commit (commitSha : String)
    (gen : String → Except String String)
    (postR : PostedComment → Except String Unit) :
    ∀ (changes : List Change) (c : PostedComment),
      c ∈ (p0Loop commitSha gen postR changes).1 → c.commit_id = commitSha := by
  intro changes
  induction changes with
  | nil => intro c h; simp [p0Loop] at h
  | cons ch rest ih =>
    intro c h
    simp only [p0Loop] at h
    split at h
    · simp at h
    · split at h
      · simp at h
      · simp only [List.mem_cons] at h
        rcases h with h | h
        · subst h; rfl
        · exact ih c h

/-! ## Claims -/

/-- C1, counterexample: on the scenario patch, the per-line segmenter does
not anchor the two units at positions 2 and 3. -/
theorem c1_positions_not_two_three :
    (getDiffChangesForPatch "file.txt" scenarioPatch).map Change.position ≠
      [2, 3] := by
  decide

/-- C1, amended: in per-line mode the scenario patch yields exactly two
change units, anchored at positions 3 and 4 — the 1-based indices of the two
added lines in the patch text's own line stream, header line included
(`position = index + 1` over the 0-based `split('\n')` index). -/
theorem c1_per_line_two_units :
    getDiffChangesForPatch "file.txt" scenarioPatch =
      [⟨"file.txt", 3, "+added line one"⟩, ⟨"file.txt", 4, "+added line two"⟩] := by
  decide

/-- C3: with at least two commits in the range, a file is reviewed exactly
when it is in the full base...head list, its name is among the names of the
second-to-last→last commit diff, and its name is not on the newline-separated
ignore list (case-sensitive exact membership). -/
theorem c3_narrowing_membership (fullRangeFiles lastPushFiles : List FileDiff)
    (ignoreRaw : String) (commits : List CommitRef)
    (h : 2 ≤ commits.length) (f : FileDiff) :
    f ∈ narrowChangedFiles fullRangeFiles lastPushFiles ignoreRaw commits ↔
      f ∈ fullRangeFiles ∧
        f.filename ∈ lastPushFiles.map FileDiff.filename ∧
        f.filename ∉ parseIgnoreList ignoreRaw := by
  simp only [narrowChangedFiles, if_pos h]
  simp [List.mem_filter, List.contains, and_assoc]

/-- C3 witness: a concrete two-commit narrowing where file `a` survives
(present in both diffs, not ignored). -/
theorem c3_narrowing_membership_witness :
    2 ≤ ([⟨"c1"⟩, ⟨"c2"⟩] : List CommitRef).length ∧
      ((⟨"a", some "+x"⟩ : FileDiff) ∈
          narrowChangedFiles [⟨"a", some "+x"⟩, ⟨"b", some "+y"⟩]
            [⟨"a", none⟩] "b" [⟨"c1"⟩, ⟨"c2"⟩] ↔
        (⟨"a", some "+x"⟩ : FileDiff) ∈
            ([⟨"a", some "+x"⟩, ⟨"b", some "+y"⟩] : List FileDiff) ∧
          (FileDiff.filename ⟨"a", some "+x"⟩) ∈
            ([⟨"a", none⟩] : List FileDiff).map FileDiff.filename ∧
          (FileDiff.filename ⟨"a", some "+x"⟩) ∉ parseIgnoreList "b") :=
  ⟨by decide,
    c3_narrowing_membership [⟨"a", some "+x"⟩, ⟨"b", some "+y"⟩] [⟨"a", none⟩]
      "b" [⟨"c1"⟩, ⟨"c2"⟩] (by decide) ⟨"a", some "+x"⟩⟩

/-- C5: a file whose patch is empty, or longer than the configured maximum
patch length (no bound is in force when the configuration is absent), is
skipped: the text-generation collaborator receives nothing, the skip is
logged, and no comment is posted. -/
theorem c5_oversized_or_empty_patch_skipped (maxPatch : Option Nat)
    (gen : String → Except String String)
    (postR : PostedComment → Except String Unit) (commitSha : String)
    (f : FileDiff)
    (h : patchOf f = "" ∨ ∃ m, maxPatch = some m ∧ m < jsLength (patchOf f)) :
    processFile maxPatch gen postR commitSha f =
      ⟨[], none, [LogEvent.skippedTooLarge f.filename]⟩ := by
  rcases h with h | ⟨m, hm, hlt⟩
  · simp [processFile, h]
  · have ht : tooLong maxPatch (patchOf f) = true := by
      simp [tooLong, hm, hlt]
    simp [processFile, ht]

/-- C5 witness: a 7-character patch against a configured maximum of 3. -/
theorem c5_oversized_or_empty_patch_skipped_witness :
    (patchOf ⟨"big.txt", some "+123456"⟩ = "" ∨
        ∃ m, (some 3 : Option Nat) = some m ∧
          m < jsLength (patchOf ⟨"big.txt", some "+123456"⟩)) ∧
      processFile (some 3) genAlways postAlwaysOk "sha" ⟨"big.txt", some "+123456"⟩ =
        ⟨[], none, [LogEvent.skippedTooLarge "big.txt"]⟩ :=
  ⟨Or.inr ⟨3, rfl, by decide⟩,
    c5_oversized_or_empty_patch_skipped (some 3) genAlways postAlwaysOk "sha"
      ⟨"big.txt", some "+123456"⟩ (Or.inr ⟨3, rfl, by decide⟩)⟩

/-- C6, counterexample: with a single commit the ignore list is NOT applied —
`README.md` is on the ignore list yet the narrower returns it unchanged. -/
theorem c6_ignore_list_skipped_single_commit :
    parseIgnoreList "README.md" = ["README.md"] ∧
      narrowChangedFiles [⟨"README.md", some "+x"⟩] [] "README.md" [⟨"c1"⟩] =
        [⟨"README.md", some "+x"⟩] := by
  constructor
  · decide
  · decide

/-- C6, amended: with fewer than two commits the narrower returns the
full-range file list completely unfiltered — the ignore list is not applied
on this path (it is only consulted inside the two-commit branch). -/
theorem c6_single_commit_unfiltered (fullRangeFiles lastPushFiles : List FileDiff)
    (ignoreRaw : String) (commits : List CommitRef)
    (h : commits.length < 2) :
    narrowChangedFiles fullRangeFiles lastPushFiles ignoreRaw commits =
      fullRangeFiles := by
  simp only [narrowChangedFiles]
  rw [if_neg (by omega)]

/-- C6 amended witness: one commit, a non-trivial ignore list, output equals
input. -/
theorem c6_single_commit_unfiltered_witness :
    ([⟨"c1"⟩] : List CommitRef).length < 2 ∧
      narrowChangedFiles [⟨"README.md", some "+x"⟩, ⟨"b", none⟩] [⟨"b", none⟩]
          "README.md" [⟨"c1"⟩] =
        [⟨"README.md", some "+x"⟩, ⟨"b", none⟩] :=
  ⟨by decide,
    c6_single_commit_unfiltered [⟨"README.md", some "+x"⟩, ⟨"b", none⟩]
      [⟨"b", none⟩] "README.md" [⟨"c1"⟩] (by decide)⟩

/-- C7: whenever `runReview`'s per-file processing posts a comment, the
comment is anchored at the number of lines of the file's patch text minus
one (`patch.split('\n').length - 1`, the position of the patch's final
line in the driver's header-included numbering), where the number of lines
is counted independently as one more than the number of newline characters. -/
theorem c7_whole_file_position (maxPatch : Option Nat)
    (gen : String → Except String String)
    (postR : PostedComment → Except String Unit) (commitSha : String)
    (f : FileDiff) (c : PostedComment)
    (h : (processFile maxPatch gen postR commitSha f).post = some c) :
    c.position = numLines (patchOf f) - 1 := by
  simp only [processFile] at h
  split at h
  · simp at h
  · split at h
    · simp at h
    · split at h
      · simp at h
      · split at h
        · simp at h
        · simp only [Option.some.injEq] at h
          subst h
          show (splitLines (patchOf f)).length - 1 = numLines (patchOf f) - 1
          rw [splitLines_length]

/-- C7 witness: a two-line patch is posted at position 1. -/
theorem c7_whole_file_position_witness :
    (processFile none genAlways postAlwaysOk "s" ⟨"a.txt", some "+x\n+y"⟩).post =
        some ⟨"a.txt", "review body", "s", 1⟩ ∧
      (⟨"a.txt", "review body", "s", 1⟩ : PostedComment).position =
        numLines (patchOf ⟨"a.txt", some "+x\n+y"⟩) - 1 :=
  ⟨by decide,
    c7_whole_file_position none genAlways postAlwaysOk "s" ⟨"a.txt", some "+x\n+y"⟩
      ⟨"a.txt", "review body", "s", 1⟩ (by decide)⟩

/-- C8: every unit emitted by the per-line segmenter sits inside the patch
(`1 ≤ start = end ≤ number of lines + 1`), carries a non-empty line list,
and each of its lines is an added line (`+`-prefixed but not the `+++`
file-header marker). -/
theorem c8_segmenter_invariant (filename patch : String) (c : Change)
    (h : c ∈ getDiffChangesForPatch filename patch) :
    1 ≤ c.position ∧ c.position ≤ (splitLines patch).length + 1 ∧
      unitLines c ≠ [] ∧
      ∀ l ∈ unitLines c,
        jsStartsWith l "+" = true ∧ jsStartsWith l "+++" = false := by
  simp only [getDiffChangesForPatch, List.mem_map, List.mem_filter] at h
  rcases h with ⟨p, ⟨hmem, hadd⟩, hc⟩
  have hb := mem_enumFromIdx hmem
  simp only [isAddedLine, Bool.and_eq_true, Bool.not_eq_true'] at hadd
  subst hc
  refine ⟨by simp, ?_, by simp [unitLines], ?_⟩
  · simp only [Change.position]
    omega
  · intro l hl
    simp only [unitLines, List.mem_singleton] at hl
    subst hl
    exact hadd

/-- C8 witness: the invariant instantiated on the first unit of the scenario
patch. -/
theorem c8_segmenter_invariant_witness :
    (⟨"file.txt", 3, "+added line one"⟩ : Change) ∈
        getDiffChangesForPatch "file.txt" scenarioPatch ∧
      1 ≤ (⟨"file.txt", 3, "+added line one"⟩ : Change).position ∧
      (⟨"file.txt", 3, "+added line one"⟩ : Change).position ≤
        (splitLines scenarioPatch).length + 1 ∧
      unitLines ⟨"file.txt", 3, "+added line one"⟩ ≠ [] ∧
      ∀ l ∈ unitLines ⟨"file.txt", 3, "+added line one"⟩,
        jsStartsWith l "+" = true ∧ jsStartsWith l "+++" = false :=
  ⟨by decide,
    c8_segmenter_invariant "file.txt" scenarioPatch
      ⟨"file.txt", 3, "+added line one"⟩ (by decide)⟩

/-- C2, counterexample: in the per-line driver a single unit's failure aborts
the batch. On a patch with units `+x` and `+y`, the dispatch of `+x` rejects;
the dispatch of `+y` would succeed, yet nothing is posted, and the error is
logged without a file name. -/
theorem c2_per_line_driver_aborts :
    genFailOnX "+y" = Except.ok "ok" ∧
      (reviewPullRequestP0 [⟨"s"⟩] [⟨"a.txt", some "+x\n+y"⟩]
          genFailOnX postAlwaysOk).posts = [] ∧
      (reviewPullRequestP0 [⟨"s"⟩] [⟨"a.txt", some "+x\n+y"⟩]
          genFailOnX postAlwaysOk).logs = [LogEvent.errorLogged "boom"] := by
  refine ⟨rfl, ?_, ?_⟩ <;> decide

/-- C2, amended: in `runReview` (`src/reviewer.js`) a unit whose dispatch or
post call raises is caught and logged with its file name, and its failure
leaves the posts of every earlier and later file unchanged — the batch
continues. -/
theorem c2_run_review_failure_isolated (maxPatch : Option Nat)
    (gen : String → Except String String)
    (postR : PostedComment → Except String Unit) (commitSha : String)
    (files₁ files₂ : List FileDiff) (f : FileDiff)
    (hne : ¬ patchOf f = "")
    (hlen : tooLong maxPatch (patchOf f) = false)
    (hfail : (∃ e, gen (patchOf f) = Except.error e) ∨
      ∃ res e, gen (patchOf f) = Except.ok res ∧ res ≠ "" ∧
        postR ⟨f.filename, res, commitSha, (splitLines (patchOf f)).length - 1⟩ =
          Except.error e) :
    LogEvent.reviewFailed f.filename ∈
        (runReviewLoop maxPatch gen postR commitSha (files₁ ++ f :: files₂)).logs ∧
      (runReviewLoop maxPatch gen postR commitSha (files₁ ++ f :: files₂)).posts =
        (runReviewLoop maxPatch gen postR commitSha files₁).posts ++
          (runReviewLoop maxPatch gen postR commitSha files₂).posts := by
  have hpf : processFile maxPatch gen postR commitSha f =
      ⟨[patchOf f], none, [LogEvent.reviewFailed f.filename]⟩ := by
    rcases hfail with ⟨e, he⟩ | ⟨res, e, hres, hresne, hpost⟩
    · simp [processFile, hne, hlen, codeReview, he]
    · simp [processFile, hne, hlen, codeReview, hres, hresne, hpost]
  rw [runReviewLoop_append, runReviewLoop_cons]
  constructor
  · simp [RunTrace.append, fileRunTrace, hpf]
  · simp [RunTrace.append, fileRunTrace, hpf]

/-- C2 amended witness: the middle file's dispatch rejects; the surrounding
files `a` and `b` are still posted, and the failure is logged with
`fail.txt`. -/
theorem c2_run_review_failure_isolated_witness :
    (¬ patchOf ⟨"fail.txt", some "+x"⟩ = "") ∧
      tooLong none (patchOf ⟨"fail.txt", some "+x"⟩) = false ∧
      ((∃ e, genFailOnX (patchOf ⟨"fail.txt", some "+x"⟩) = Except.error e) ∨
        ∃ res e, genFailOnX (patchOf ⟨"fail.txt", some "+x"⟩) = Except.ok res ∧
          res ≠ "" ∧
          postAlwaysOk ⟨FileDiff.filename ⟨"fail.txt", some "+x"⟩, res, "s",
              (splitLines (patchOf ⟨"fail.txt", some "+x"⟩)).length - 1⟩ =
            Except.error e) ∧
      LogEvent.reviewFailed "fail.txt" ∈
        (runReviewLoop none genFailOnX postAlwaysOk "s"
          ([⟨"a", some "+a"⟩] ++ ⟨"fail.txt", some "+x"⟩ :: [⟨"b", some "+b"⟩])).logs ∧
      (runReviewLoop none genFailOnX postAlwaysOk "s"
          ([⟨"a", some "+a"⟩] ++ ⟨"fail.txt", some "+x"⟩ :: [⟨"b", some "+b"⟩])).posts =
        (runReviewLoop none genFailOnX postAlwaysOk "s" [⟨"a", some "+a"⟩]).posts ++
          (runReviewLoop none genFailOnX postAlwaysOk "s" [⟨"b", some "+b"⟩]).posts := by
  refine ⟨by decide, rfl, Or.inl ⟨"boom", rfl⟩, ?_⟩
  exact c2_run_review_failure_isolated none genFailOnX postAlwaysOk "s"
    [⟨"a", some "+a"⟩] [⟨"b", some "+b"⟩] ⟨"fail.txt", some "+x"⟩
    (by decide) rfl (Or.inl ⟨"boom", rfl⟩)

/-- C4, counterexample: the per-line driver posts unconditionally — a unit
whose verdict is the empty string is still posted (with an empty body),
so the emptiness check does not precede the poster there. -/
theorem c4_per_line_driver_posts_empty_verdict :
    (reviewPullRequestP0 [⟨"s"⟩] [⟨"a.txt", some "+x"⟩]
        genEmptyVerdict postAlwaysOk).posts = [⟨"a.txt", "", "s", 1⟩] := by
  decide

/-- C4, amended: in `runReview` (`src/reviewer.js`) an empty verdict is a
normal suppressed outcome: the file's trace is the same for every poster
(so the poster is never invoked), no comment is recorded, and the iteration
ends with the ordinary success log rather than an error. -/
theorem c4_empty_verdict_suppressed (maxPatch : Option Nat)
    (gen : String → Except String String) (commitSha : String) (f : FileDiff)
    (hne : ¬ patchOf f = "")
    (hlen : tooLong maxPatch (patchOf f) = false)
    (hempty : gen (patchOf f) = Except.ok "") :
    ∀ postR : PostedComment → Except String Unit,
      processFile maxPatch gen postR commitSha f =
        ⟨[patchOf f], none, [LogEvent.reviewPosted]⟩ := by
  intro postR
  simp [processFile, hne, hlen, codeReview, hempty]

/-- C4 amended witness: an empty verdict on file `a.txt` is suppressed. -/
theorem c4_empty_verdict_suppressed_witness :
    (¬ patchOf ⟨"a.txt", some "+x"⟩ = "") ∧
      tooLong none (patchOf ⟨"a.txt", some "+x"⟩) = false ∧
      genEmptyVerdict (patchOf ⟨"a.txt", some "+x"⟩) = Except.ok "" ∧
      processFile none genEmptyVerdict postAlwaysOk "s" ⟨"a.txt", some "+x"⟩ =
        ⟨[patchOf ⟨"a.txt", some "+x"⟩], none, [LogEvent.reviewPosted]⟩ :=
  ⟨by decide, rfl, rfl,
    c4_empty_verdict_suppressed none genEmptyVerdict "s" ⟨"a.txt", some "+x"⟩
      (by decide) rfl rfl postAlwaysOk⟩

/-- C9: when the base...head fetch fails, `runReview` logs the compared
range, posts nothing, dispatches nothing, and re-raises — but because
`reviewPullRequest` calls `runReview` without awaiting it, its try/catch
handler never fires (`caughtByHandler = none`) and the rejection escapes as
an unhandled promise rejection, contrary to the claim that a top-level
catch prints the error so the failure never escapes unhandled. -/
theorem c9_fetch_failure_escapes_handler :
    runReview "baseSha" "headSha" none "" (Except.error "boom") (Except.ok [])
        genAlways postAlwaysOk =
      ⟨⟨[LogEvent.compareError "baseSha" "headSha"], [], []⟩, none, some "boom"⟩ ∧
      reviewPullRequest "baseSha" "headSha" none "" (Except.error "boom")
          (Except.ok []) genAlways postAlwaysOk =
        ⟨⟨⟨[LogEvent.compareError "baseSha" "headSha"], [], []⟩, none, some "boom"⟩,
          none, some "boom"⟩ :=
  ⟨rfl, rfl⟩

/-- C10: with a non-empty commit list, every comment posted by either driver
in one run carries the same `commit_id`: the SHA of the last commit of the
run's commit list (computed once per run from that single list). -/
theorem c10_single_anchor_commit (base head : String) (maxPatch : Option Nat)
    (ignoreRaw : String) (files : List FileDiff) (commits : List CommitRef)
    (cmpLastPush : Except String (List FileDiff))
    (gen : String → Except String String)
    (postR : PostedComment → Except String Unit)
    (filesP0 : List FileDiff) (genP0 : String → Except String String)
    (postP0 : PostedComment → Except String Unit)
    (h : commits ≠ []) :
    (∀ c ∈ (runReview base head maxPatch ignoreRaw
          (Except.ok ⟨files, commits⟩) cmpLastPush gen postR).trace.posts,
        c.commit_id = (commits.getLast h).sha) ∧
      (∀ c ∈ (reviewPullRequestP0 commits filesP0 genP0 postP0).posts,
        c.commit_id = (commits.getLast h).sha) := by
  have hsha : lastSha commits = (commits.getLast h).sha := by
    simp [lastSha, List.getLast?_eq_getLast _ h]
  constructor
  · intro c hc
    simp only [runReview] at hc
    cases hE : (if 2 ≤ commits.length then cmpLastPush else Except.ok []) with
    | error e =>
      rw [hE] at hc
      simp at hc
    | ok lastPushFiles =>
      rw [hE] at hc
      by_cases h0 :
          (narrowChangedFiles files lastPushFiles ignoreRaw commits).length = 0
      · simp [h0] at hc
      · simp only [h0, if_neg, if_false] at hc
        rcases mem_posts_runReviewLoop _ _ _ _ _ _ hc with ⟨g, _, hpost⟩
        rw [← hsha]
        exact processFile_post_commit _ _ _ _ _ _ hpost
  · intro c hc
    simp only [reviewPullRequestP0, List.getLast?_eq_getLast _ h] at hc
    cases hr :
        (p0Loop (commits.getLast h).sha genP0 postP0 (getDiff filesP0)).2 with
    | none =>
      rw [hr] at hc
      exact p0Loop_posts_commit _ _ _ _ c (by simpa using hc)
    | some e =>
      rw [hr] at hc
      exact p0Loop_posts_commit _ _ _ _ c (by simpa using hc)

/-- C10 witness: a two-commit run in each driver; every posted comment is
anchored at `c2`'s SHA, and the runs do post. -/
theorem c10_single_anchor_commit_witness :
    ([⟨"c1"⟩, ⟨"c2"⟩] : List CommitRef) ≠ [] ∧
      (runReview "b" "h" none "" (Except.ok ⟨[⟨"a", some "+x"⟩], [⟨"c1"⟩, ⟨"c2"⟩]⟩)
          (Except.ok [⟨"a", none⟩]) genAlways postAlwaysOk).trace.posts ≠ [] ∧
      (∀ c ∈ (runReview "b" "h" none ""
            (Except.ok ⟨[⟨"a", some "+x"⟩], [⟨"c1"⟩, ⟨"c2"⟩]⟩)
            (Except.ok [⟨"a", none⟩]) genAlways postAlwaysOk).trace.posts,
        c.commit_id =
          (([⟨"c1"⟩, ⟨"c2"⟩] : List CommitRef).getLast (by decide)).sha) ∧
      (∀ c ∈ (reviewPullRequestP0 [⟨"c1"⟩, ⟨"c2"⟩] [⟨"a", some "+x"⟩]
            genAlways postAlwaysOk).posts,
        c.commit_id =
          (([⟨"c1"⟩, ⟨"c2"⟩] : List CommitRef).getLast (by decide)).sha) :=
  ⟨by decide, by decide,
    (c10_single_anchor_commit "b" "h" none "" [⟨"a", some "+x"⟩]
        [⟨"c1"⟩, ⟨"c2"⟩] (Except.ok [⟨"a", none⟩]) genAlways postAlwaysOk
        [⟨"a", some "+x"⟩] genAlways postAlwaysOk (by decide)).1,
    (c10_single_anchor_commit "b" "h" none "" [⟨"a", some "+x"⟩]
        [⟨"c1"⟩, ⟨"c2"⟩] (Except.ok [⟨"a", none⟩]) genAlways postAlwaysOk
        [⟨"a", some "+x"⟩] genAlways postAlwaysOk (by decide)).2⟩

end GptCodeReviewer
